import Mathlib

/-!
Verification of the DaftScraperMap listing-acquisition pipeline.

This file gives a shallow embedding, in Lean 4, of the core of
`Backend/core/utils.py`, `Backend/core/parser.py`, `Backend/core/fetcher.py`,
`Backend/core/daft_scraper.py` and `Backend/core/supabase_client.py`,
together with theorems about the embedded definitions.

Conventions of the embedding:
* Python strings are Lean `String` / `List Char`; `str.lower()` is modelled by
  an ASCII lower-casing map (all strings the code manipulates are ASCII apart
  from the euro sign, which `lower()` leaves unchanged).
* Python floats are modelled by `ℚ`.  Every numeric value the pipeline
  computes is either an integer or an integer divided by a small power of
  ten, and the single arithmetic expression `round(amount * 52 / 12)` is
  exact in double precision for all realistic magnitudes (the true value is
  a multiple of 1/3, never within double-rounding distance of a half), so
  rational arithmetic is a faithful model.
* `re.search` calls are modelled by deterministic scanners that munch the
  input exactly as the backtracking engine does on the patterns in question
  (all the patterns used are such that greedy matching never backtracks,
  as the character classes of adjacent pattern pieces are disjoint).
* Fallible Python code (`try`/`except`) returns `Option`/sum types.
-/

namespace DaftScraper

/-! ## Python string primitives -/

/-- Python `str.lower()` restricted to ASCII (the euro sign and other
non-ASCII characters are left unchanged, as in Python). -/
def pyLowerChar (c : Char) : Char :=
  if 'A' ≤ c ∧ c ≤ 'Z' then Char.ofNat (c.toNat + 32) else c

def pyLower (l : List Char) : List Char := l.map pyLowerChar

/-- Python `\s` for the ASCII range. -/
def pyIsSpace (c : Char) : Bool :=
  c = ' ' || c = '\t' || c = '\n' || c = '\x0d' || c = '\x0b' || c = '\x0c'

/-- Greedy munch: longest prefix satisfying `p`, plus the rest. -/
def munch (p : Char → Bool) : List Char → List Char × List Char
  | [] => ([], [])
  | c :: t =>
    if p c then
      let r := munch p t
      (c :: r.1, r.2)
    else ([], c :: t)

/-- Match a literal (the pattern, as a char list) as a prefix, returning
the remainder on success. -/
def stripPrefixL : List Char → List Char → Option (List Char)
  | [], rest => some rest
  | _, [] => none
  | p :: ps, c :: cs => if p = c then stripPrefixL ps cs else none

/-- Python `needle in hay` on strings (substring containment). -/
def listContains (needle : List Char) : List Char → Bool
  | [] => needle.isPrefixOf []
  | c :: t => needle.isPrefixOf (c :: t) || listContains needle t

/-- Python `int(s)` on a string of decimal digits. -/
def digitsVal (l : List Char) : ℕ :=
  l.foldl (fun a c => 10 * a + (c.toNat - '0'.toNat)) 0

/-- Split a char list at every occurrence of `sep`, keeping empty pieces
(Python `s.split(sep)` semantics for a one-character separator). -/
def splitOnChar (sep : Char) : List Char → List (List Char)
  | [] => [[]]
  | c :: t =>
    let r := splitOnChar sep t
    if c = sep then [] :: r
    else
      match r with
      | [] => [[c]]
      | h :: t' => (c :: h) :: t'

/-- Python `s.split('.')`. -/
def splitDot : List Char → List (List Char) := splitOnChar '.'

/-- Python `s.strip(ch)` for a one-character strip set. -/
def stripChar (ch : Char) (l : List Char) : List Char :=
  ((l.dropWhile (· = ch)).reverse.dropWhile (· = ch)).reverse

/-- Python `float(s)` for strings over the alphabet `[0-9.]` (the only
alphabet the scraped code ever feeds it after comma removal):
`none` models a raised `ValueError`. -/
def pyFloat (l : List Char) : Option ℚ :=
  match splitDot l with
  | [d] => if d ≠ [] ∧ d.all Char.isDigit then some (digitsVal d) else none
  | [a, b] =>
    if (a ≠ [] ∨ b ≠ []) ∧ a.all Char.isDigit ∧ b.all Char.isDigit then
      some ((digitsVal a : ℚ) + (digitsVal b : ℚ) / (10 : ℚ) ^ b.length)
    else none
  | _ => none

/-- Python `round(q)` (one-argument form): nearest integer,
ties to even. -/
def pyRound (q : ℚ) : ℤ :=
  let f := ⌊q⌋
  let r := q - f
  if r < 1/2 then f
  else if 1/2 < r then f + 1
  else if Even f then f else f + 1

/-- First-match scan: try the position matcher `m` at every suffix,
left to right (the leftmost-match rule of `re.search`). -/
def scanFirst {α : Type} (m : List Char → Option α) : List Char → Option α
  | [] => m []
  | c :: t =>
    match m (c :: t) with
    | some r => some r
    | none => scanFirst m t

/-! ## Data model (`Backend/models.py`) -/

inductive PriceType : Type
  | numeric | on_application | unknown
  deriving DecidableEq, Repr

/-- Model of `ParsedPriceResult(value: Optional[float], type: Literal[...])`. -/
structure ParsedPriceResult : Type where
  value : Option ℚ
  type : PriceType
  deriving DecidableEq, Repr

/-- Model of `ParsedBedsResult(min: int, max: int, is_studio: Optional[bool])`. -/
structure ParsedBedsResult : Type where
  min : ℕ
  max : ℕ
  is_studio : Bool := false
  deriving DecidableEq, Repr

/-! ## Regex scanners for `utils.py`

Each Python `re.search(pattern, s)` is modelled by `scanFirst` of a
position matcher that munches the input exactly as the engine does: for
all the patterns below, the character class of each greedy piece is
disjoint from the first characters the following piece can accept, so
greedy matching never backtracks inside a position. -/

/-- The cadence alternatives of the price pattern, in source order. -/
def priceAlts : List (List Char) :=
  [['m','o','n','t','h'], ['w','e','e','k'], ['m','t','h'], ['w','k'],
   ['p','m'], ['p','/','m'], ['p','w'], ['p','/','w'],
   ['p','e','r','w','e','e','k']]

/-- The regex alternation `(month|week|mth|wk|pm|p/m|pw|p/w|perweek)`:
first alternative that matches as a prefix. -/
def tryPriceAlt (s : List Char) : Option (List Char) :=
  priceAlts.firstM (fun a => if a.isPrefixOf s then some a else none)

/-- The optional cadence group `(?:(?:per\s*)?(month|...))?` of the price
pattern: greedy `per\s*` first, backtracking to the bare alternation. -/
def pricePeriodGroup (r3 : List Char) : Option (List Char) :=
  match stripPrefixL ['p','e','r'] r3 with
  | some r4 =>
    match tryPriceAlt (munch pyIsSpace r4).2 with
    | some w => some w
    | none => tryPriceAlt r3
  | none => tryPriceAlt r3

/-- The price pattern after the optional `€` prefix:
`([\d,]+(?:\.\d{2})?)\s*(?:...)?`.  Returns `(group1, group2)`. -/
def priceBody (l : List Char) : Option (List Char × Option (List Char)) :=
  let (g1a, r1) := munch (fun c => c.isDigit || c = ',') l
  if g1a = [] then none
  else
    -- optional `\.\d{2}` (greedy; exactly two digits)
    let fr : List Char × List Char :=
      match r1 with
      | '.' :: a :: b :: r' =>
        if a.isDigit ∧ b.isDigit then (g1a ++ ['.', a, b], r') else (g1a, r1)
      | _ => (g1a, r1)
    some (fr.1, pricePeriodGroup (munch pyIsSpace fr.2).2)

/-- Position matcher for
`(?:€\s*)?([\d,]+(?:\.\d{2})?)\s*(?:(?:per\s*)?(month|week|mth|wk|pm|p/m|pw|p/w|perweek))?`
(the price pattern of `parse_price`).  If the position starts with `€` the
greedy optional group consumes it, and the body must then match (falling
back to not consuming the `€` cannot succeed, as `[\d,]` does not match
`€`). -/
def matchPriceAt (l : List Char) : Option (List Char × Option (List Char)) :=
  match l with
  | '€' :: t => priceBody (munch pyIsSpace t).2
  | _ => priceBody l

/-- Position matcher for `(\d+)\s*(?:to|-)\s*(\d+)\s*bed`
(the bedroom-range pattern of `parse_beds`). -/
def matchBedsRangeAt (l : List Char) : Option (List Char × List Char) := do
  let (d1, r1) := munch Char.isDigit l
  if d1 = [] then none
  else
    let r2 := (munch pyIsSpace r1).2
    let r3 ←
      match stripPrefixL ['t','o'] r2 with
      | some r => some r
      | none => stripPrefixL ['-'] r2
    let (d2, r4) := munch Char.isDigit (munch pyIsSpace r3).2
    if d2 = [] then none
    else do
      let _ ← stripPrefixL ['b','e','d'] (munch pyIsSpace r4).2
      some (d1, d2)

/-- Position matcher for `(\d+)\s*` followed by a literal word
(used for `(\d+)\s*bed` and `(\d+)\s*bath`). -/
def matchNumWordAt (word : List Char) (l : List Char) : Option (List Char) := do
  let (d, r) := munch Char.isDigit l
  if d = [] then none
  else do
    let _ ← stripPrefixL word (munch pyIsSpace r).2
    some d

/-! ## Field normalizers (`Backend/core/utils.py`) -/

/-- The tail of `parse_price` (`utils.py` lines 50–59): the
`simple_numeric` re-sub branch, falling through to `unknown`. -/
def priceFallback (s : String) : ParsedPriceResult :=
  let norm := pyLower s.data
  let simple := s.data.filter (fun c => c.isDigit || c = '.')
  let kept := s.data.filter
    (fun c => c.isDigit || c = '€' || pyIsSpace c || c = '.' || c = ',')
  if simple ≠ [] ∧ simple = kept then
    match pyFloat simple with
    | some p =>
      if 100 ≤ p ∧ (listContains ['€'] norm
          || listContains "per month".data norm
          || listContains "per week".data norm) then
        ⟨some p, .numeric⟩
      else ⟨none, .unknown⟩
    | none => ⟨none, .unknown⟩
  else ⟨none, .unknown⟩

/-- Function `parse_price` on a (non-empty) string argument, lines 26–59 of
`utils.py`.  The `None`/non-`str` guard is added in `parse_price`. -/
def parse_price_str (s : String) : ParsedPriceResult :=
  let norm := pyLower s.data
  if listContains "price on application".data norm
      || listContains "contact agent".data norm then
    ⟨none, .on_application⟩
  else
    let fallback : ParsedPriceResult := priceFallback s
    match scanFirst matchPriceAt norm with
    | some (g1, g2) =>
      match pyFloat (g1.filter (· ≠ ',')) with
      | some amount =>
        match g2 with
        | some w =>
          -- `period_word.startswith('week'/'wk') or in ['pw','p/w','perweek']`
          let weekly := (['w','e','e','k'].isPrefixOf w)
            || (['w','k'].isPrefixOf w)
            || w = ['p','w'] || w = ['p','/','w'] || w = ['p','e','r','w','e','e','k']
          let amount := if weekly then ((pyRound (amount * 52 / 12) : ℤ) : ℚ)
            else amount
          ⟨some amount, .numeric⟩
        | none =>
          if listContains ['€'] norm then ⟨some amount, .numeric⟩
          else fallback
      | none => fallback
    | none => fallback

/-- Function `parse_beds` on a (non-empty) string argument, lines 65–87 of
`utils.py`. -/
def parse_beds_str (s : String) : Option ParsedBedsResult :=
  let norm := pyLower s.data
  if listContains "studio".data norm then
    some ⟨1, 1, true⟩
  else
    match scanFirst matchBedsRangeAt norm with
    | some (d1, d2) =>
      let a := digitsVal d1
      let b := digitsVal d2
      some ⟨Min.min a b, Max.max a b, false⟩
    | none =>
      match scanFirst (matchNumWordAt ['b','e','d']) norm with
      | some d => some ⟨digitsVal d, digitsVal d, false⟩
      | none => none

/-- Function `parse_bathrooms` on a (non-empty) string argument, lines 93–100 of
`utils.py`. -/
def parse_bathrooms_str (s : String) : Option ℕ :=
  match scanFirst (matchNumWordAt ['b','a','t','h']) (pyLower s.data) with
  | some d => some (digitsVal d)
  | none => none

/-- Function `format_ber` (`utils.py` lines 149–156); the argument is the
non-`None`, truthy case (the guard lives at call sites / the first line). -/
def format_ber (ber : String) : String :=
  let cleaned := (((ber.replace "BER " "").data).dropWhile pyIsSpace).reverse
    |>.dropWhile pyIsSpace |>.reverse
  if cleaned = "SI_666".data then "Exempt" else ⟨cleaned⟩

/-! ## Python dynamic values

The normalizers guard on `not x or not isinstance(x, str)`, so their
domain is every Python value.  `PyObj` models the values that can reach
them: `None`, strings, and non-string scalars. -/

inductive PyObj : Type
  | none
  | str (s : String)
  | int (i : ℤ)
  | float (q : ℚ)
  | bool (b : Bool)
  deriving DecidableEq

/-- Is the object a `str` instance? -/
def PyObj.isStr : PyObj → Bool
  | .str _ => true
  | _ => false

/-- Python truthiness restricted to the guard's uses. -/
def PyObj.truthy : PyObj → Bool
  | .none => false
  | .str s => s ≠ ""
  | .int i => i ≠ 0
  | .float q => q ≠ 0
  | .bool b => b

/-- Function `parse_price` (`utils.py` lines 22–59), full signature. -/
def parse_price (v : PyObj) : ParsedPriceResult :=
  if ¬ v.truthy ∨ ¬ v.isStr then ⟨Option.none, .unknown⟩
  else match v with
    | .str s => parse_price_str s
    | _ => ⟨Option.none, .unknown⟩

/-- Function `parse_beds` (`utils.py` lines 61–87), full signature. -/
def parse_beds (v : PyObj) : Option ParsedBedsResult :=
  if ¬ v.truthy ∨ ¬ v.isStr then Option.none
  else match v with
    | .str s => parse_beds_str s
    | _ => Option.none

/-- Function `parse_bathrooms` (`utils.py` lines 89–100), full signature. -/
def parse_bathrooms (v : PyObj) : Option ℕ :=
  if ¬ v.truthy ∨ ¬ v.isStr then Option.none
  else match v with
    | .str s => parse_bathrooms_str s
    | _ => Option.none

/-! ## Records (`Backend/models.py`)

`datetime` fields are carried as opaque strings; `inserted_at`
(a wall-clock default) is omitted. -/

/-- Model of `ScrapedProperty`: the raw candidate produced by the parser. -/
structure ScrapedProperty : Type where
  address : String
  url : String
  id : String
  tagline : String
  price_string : String
  parsed_price : Option ℚ := Option.none
  price_type : PriceType := .unknown
  beds_string : String
  parsed_beds : Option ParsedBedsResult := Option.none
  baths_string : String
  property_type_string : String
  ber : Option String := Option.none
  latitude : Option ℚ := Option.none
  longitude : Option ℚ := Option.none
  image_url : Option String := Option.none
  date_listed : Option String := Option.none
  deriving DecidableEq, Repr

inductive ListingType : Type
  | rent | sale
  deriving DecidableEq, Repr

/-- Model of `PropertyListing`: the normalized record handed to persistence. -/
structure PropertyListing : Type where
  id : Option ℤ := Option.none
  url : String
  title : String
  listing_type : ListingType
  price_eur : Option ℚ := Option.none
  price_period : Option String := Option.none
  bedrooms : Option ℕ := Option.none
  bathrooms : Option ℕ := Option.none
  property_type : Option String := Option.none
  latitude : Option ℚ := Option.none
  longitude : Option ℚ := Option.none
  date_listed : Option String := Option.none
  image_url : Option String := Option.none
  address_full : Option String := Option.none
  deriving DecidableEq, Repr

/-! ## `DaftScraper.transform_to_property_listing`
(`daft_scraper.py` lines 321–349) -/

/-- Python `int(s)` behind the guard `sp.id and sp.id.isdigit()` of the transform. -/
def pyIntOfId (s : String) : Option ℤ :=
  if s ≠ "" ∧ s.data ≠ [] ∧ s.data.all Char.isDigit then some (digitsVal s.data)
  else Option.none

def transform_to_property_listing (sp : ScrapedProperty)
    (listing_type : ListingType) : PropertyListing :=
  let price_period : Option String :=
    if sp.price_string ≠ "" then
      let lower := pyLower sp.price_string.data
      if listContains "week".data lower || listContains "pw".data lower then
        some "week"
      else if listContains "month".data lower || listContains "pm".data lower then
        some "month"
      else Option.none
    else Option.none
  let bathrooms := parse_bathrooms (.str sp.baths_string)
  let title := if sp.tagline ≠ "" then sp.tagline else sp.address
  { id := pyIntOfId sp.id
    url := sp.url
    title := title
    listing_type := listing_type
    price_eur := sp.parsed_price
    price_period := price_period
    bedrooms := sp.parsed_beds.map (·.min)
    bathrooms := bathrooms
    property_type := some sp.property_type_string
    latitude := sp.latitude
    longitude := sp.longitude
    date_listed := sp.date_listed
    image_url := sp.image_url
    address_full := some sp.address }

/-! ## `DaftScraper._extract_property_info_from_url`
(`daft_scraper.py` lines 299–319) -/

/-- The path segments the function splits the URL into: the base URL (every
occurrence, per `str.replace`) is removed, surrounding `/` stripped, and the
rest split at `/`. -/
def urlParts (base url : String) : List (List Char) :=
  let relative := if listContains base.data url.data then url.replace base "" else url
  splitOnChar '/' (stripChar '/' relative.data)

def extract_property_info_from_url (base url : String) :
    Option String × Option String :=
  let parts := urlParts base url
  let lastP := parts.getLastD []
  if 3 ≤ parts.length ∧ lastP ≠ [] ∧ lastP.all Char.isDigit then
    (some ⟨lastP⟩, some ⟨parts.reverse.getD 1 []⟩)
  else (Option.none, Option.none)

/-! ## `Parser.parse_property_details` (`parser.py` lines 182–212)

The markup inputs are abstracted to the values the selector/extraction
helpers produce from them:
* `latLng` — the result of `extract_lat_lng` on the map-link element, when
  the element is present and the coordinate regexes parse;
* `berText` — the first BER selector hit whose `aria-label`/text is truthy
  (the selector loop skips hits with empty text, so the string is
  non-empty by construction). -/

structure DetailHtml : Type where
  latLng : Option (ℚ × ℚ) := Option.none
  berText : Option String := Option.none
  deriving DecidableEq, Repr

/-- Python truthiness of `property_data.ber` (`None` and `''` are falsy). -/
def berFalsy : Option String → Bool
  | Option.none => true
  | some s => s = ""

def parse_property_details (page : DetailHtml) (property_data : ScrapedProperty) :
    ScrapedProperty :=
  -- lines 185–190: coordinates are assigned unconditionally when found
  let pd := match page.latLng with
    | some (la, lo) => { property_data with latitude := some la, longitude := some lo }
    | Option.none => property_data
  -- lines 192–205: BER is filled only `if not property_data.ber`
  let pd := if berFalsy pd.ber then
      match page.berText with
      | some t => { pd with ber := some (format_ber t) }
      | Option.none => pd
    else pd
  -- lines 207–210: the date element's text is read and discarded (`pass`)
  pd

/-! ## `Parser.get_total_pages` (`parser.py` lines 214–237)

The markup input is abstracted to the text of the
`span.sc-4c172e97-0.ioLdWh` element, when present. -/

/-- Position matcher for `of\s*([\d,]+)\s*total results` (IGNORECASE is
modelled by running on the lower-cased text). -/
def matchOfTotalAt (l : List Char) : Option (List Char) := do
  let r1 ← stripPrefixL ['o','f'] l
  let (g, r3) := munch (fun c => c.isDigit || c = ',') (munch pyIsSpace r1).2
  if g = [] then none
  else do
    let _ ← stripPrefixL "total results".data (munch pyIsSpace r3).2
    some g

def get_total_pages (maxPagesToFetch : ℕ) (spanText : Option String) : ℕ :=
  match spanText with
  | Option.none => 1
  | some t =>
    match scanFirst matchOfTotalAt (pyLower t.data) with
    | some g =>
      let ds := g.filter (· ≠ ',')
      if ds ≠ [] then
        -- `total_results = int(...)`, `calculated = (n + 19) // 20`,
        -- `total = min(calculated, config.MAX_PAGES_TO_FETCH)`
        Min.min ((digitsVal ds + 19) / 20) maxPagesToFetch
      else 1  -- `int` raised `ValueError`; the `except` falls through to `return 1`
    | Option.none => 1

/-! ## `SupabaseClient.upsert_properties_batch`
(`supabase_client.py` lines 169–217)

The function builds `data_list` from the batch, skipping a record whose
(truthy) id was already seen in this batch, and hands `data_list` to the
store's `upsert(..., on_conflict="id")`.  `upsertDataList` is that
`data_list` computation; note the Python truthiness guard
`if data.get('id') and data['id'] in seen_ids`: a record whose id is the
integer `0` is falsy and bypasses the in-batch dedup. -/

def idTruthy : Option ℤ → Bool
  | some i => i ≠ 0
  | Option.none => false

def upsertDataListGo (seen : List ℤ) : List PropertyListing → List PropertyListing
  | [] => []
  | p :: rest =>
    if idTruthy p.id ∧ ∃ i, p.id = some i ∧ i ∈ seen then
      upsertDataListGo seen rest
    else
      let seen' := match p.id with
        | some i => if idTruthy p.id then i :: seen else seen
        | Option.none => seen
      p :: upsertDataListGo seen' rest

def upsertDataList (properties : List PropertyListing) : List PropertyListing :=
  upsertDataListGo [] properties

/-! ## The batch loop shared by `DaftScraper.scrape_and_upload`
(lines 384–402) and `DaftScraper.scrape_limited_and_upload`
(lines 676–694)

`for i in range(0, len(new_properties), batch_size)` with
`batch = new_properties[i:i+batch_size]`. -/

/-- Structural worker for `chunks`; the fuel is an upper bound on the
input length (each step consumes at least one element when `0 < n`). -/
def chunksAux (n : ℕ) : ℕ → List α → List (List α)
  | _, [] => []
  | 0, _ :: _ => []  -- unreachable: the fuel dominates the length
  | fuel + 1, c :: t =>
    if n = 0 then []  -- unreachable at the call site (batch_size = 100)
    else ((c :: t).take n) :: chunksAux n fuel ((c :: t).drop n)

/-- The successive slices `l[i:i+n]` for `i = 0, n, 2n, ...`. -/
def chunks (n : ℕ) (l : List α) : List (List α) := chunksAux n l.length l

/-- Outcome of one run of the upload phase. -/
structure UploadResult : Type where
  success : Bool
  count : ℕ
  /-- the `data_list` payloads handed to the store's upsert, in order,
  one per attempted batch -/
  attempted : List (List PropertyListing)
  deriving Repr

/-- The upload phase of both `scrape_and_upload` and
`scrape_limited_and_upload`, from the `if not new_properties` early
return through the final summary.  `ok i` tells whether the store's
upsert call for batch `i` succeeds (raising is modelled by `false`);
a successful upsert returns the `data_list` rows, whose length the
loop adds to `total_inserted`. -/
def uploadPhase (new_properties : List PropertyListing) (ok : ℕ → Bool) :
    UploadResult :=
  if new_properties = [] then
    { success := true, count := 0, attempted := [] }
  else
    let bs := chunks 100 new_properties
    let payloads := bs.map upsertDataList
    let total := (List.range bs.length).foldl
      (fun acc i => if ok i then acc + (payloads.getD i []).length else acc) 0
    { success := true, count := total, attempted := payloads }

/-! ## `Fetcher.fetch_page_html` / `Fetcher.fetch_json_api`
(`fetcher.py` lines 22–97 and 99–183)

The HTTP collaborator is an oracle from the attempt number to the
response.  Time is modelled by recording every `delay(...)` call the
retry logic makes; the throw-away warm-up request to the site root
(page 1, attempt 1, swallowed by `except: pass`) is recorded as a flag.
Exceptions are modelled by an error result:
* `ScrapingException(url, status_code=404)` for the 404 branch,
* `RateLimitException(retry_after=RETRY_DELAY_MS * 2)` after exhausted 403s,
* `NetworkException(timeout=...)` for exhausted timeouts / request errors,
* `ScrapingException` (no status) for an unparseable JSON body. -/

/-- One HTTP exchange, as seen by the retry loop. -/
inductive HttpResp : Type
  | status (code : ℕ) (body : String)
  | timeout
  | reqError
  deriving DecidableEq, Repr

inductive FetchError : Type
  | scraping (url : String) (statusCode : Option ℕ)
  | rateLimit (url : String) (retryAfter : ℕ)
  | network (url : String) (isTimeout : Bool)
  deriving DecidableEq, Repr

/-- Trace of the observable side effects of one fetch call. -/
structure FetchTrace : Type where
  attempts : ℕ := 0
  retrySleeps : List ℕ := []
  prefetched : Bool := false
  deriving DecidableEq, Repr

structure FetchCfg : Type where
  maxFetchRetries : ℕ
  retryDelayMs : ℕ
  deriving Repr

/-- The body of `for attempt in range(1, MAX_FETCH_RETRIES + 2)` in
`fetch_page_html`; `remaining` is the number of loop iterations left.
The warm-up request to the site root (fired when `page_number == 1 and
attempt == 1`, swallowed by `except: pass`, no effect on control flow)
is recorded by the `fetch_page_html` wrapper instead: the loop always
executes attempt 1, so `prefetched = (pageNumber = 1)` exactly. -/
def fetchPageHtmlGo (cfg : FetchCfg) (resp : ℕ → HttpResp) (url : String) :
    ℕ → ℕ → FetchTrace → (String ⊕ FetchError) × FetchTrace
  | _, 0, tr =>
    -- fell off the loop: `raise NetworkException(... multiple retries)`
    (.inr (.network url false), tr)
  | attempt, remaining + 1, tr =>
    let tr := { tr with attempts := tr.attempts + 1 }
    match resp attempt with
    | .status 404 _ => (.inr (.scraping url (some 404)), tr)
    | .status 403 _ =>
      if attempt ≤ cfg.maxFetchRetries then
        fetchPageHtmlGo cfg resp url (attempt + 1) remaining
          { tr with retrySleeps := tr.retrySleeps ++ [cfg.retryDelayMs * 2] }
      else (.inr (.rateLimit url (cfg.retryDelayMs * 2)), tr)
    | .status code body =>
      if code < 400 then (.inl body, tr)   -- `raise_for_status` passes; return text
      else  -- HTTPError is a RequestException: generic retry branch
        if cfg.maxFetchRetries < attempt then (.inr (.network url false), tr)
        else fetchPageHtmlGo cfg resp url (attempt + 1) remaining
          { tr with retrySleeps := tr.retrySleeps ++ [cfg.retryDelayMs] }
    | .timeout =>
      if cfg.maxFetchRetries < attempt then (.inr (.network url true), tr)
      else fetchPageHtmlGo cfg resp url (attempt + 1) remaining
        { tr with retrySleeps := tr.retrySleeps ++ [cfg.retryDelayMs] }
    | .reqError =>
      if cfg.maxFetchRetries < attempt then (.inr (.network url false), tr)
      else fetchPageHtmlGo cfg resp url (attempt + 1) remaining
        { tr with retrySleeps := tr.retrySleeps ++ [cfg.retryDelayMs] }

def fetch_page_html (cfg : FetchCfg) (resp : ℕ → HttpResp) (url : String)
    (pageNumber : ℕ) : (String ⊕ FetchError) × FetchTrace :=
  fetchPageHtmlGo cfg resp url 1 (cfg.maxFetchRetries + 1)
    { prefetched := decide (pageNumber = 1) }

/-- The body of the identical loop in `fetch_json_api`; the JSON decoding
of a 2xx body is an oracle `parse` (`none` models `json.JSONDecodeError`,
which the code converts to a `ScrapingException` that propagates —
it is not a `requests` exception, so no retry). -/
def fetchJsonApiGo (cfg : FetchCfg) (resp : ℕ → HttpResp)
    (parse : String → Option String) (url : String) : ℕ → ℕ → FetchTrace →
    (String ⊕ FetchError) × FetchTrace
  | _, 0, tr => (.inr (.network url false), tr)
  | attempt, remaining + 1, tr =>
    let tr := { tr with attempts := tr.attempts + 1 }
    match resp attempt with
    | .status 404 _ => (.inr (.scraping url (some 404)), tr)
    | .status 403 _ =>
      if attempt ≤ cfg.maxFetchRetries then
        fetchJsonApiGo cfg resp parse url (attempt + 1) remaining
          { tr with retrySleeps := tr.retrySleeps ++ [cfg.retryDelayMs * 2] }
      else (.inr (.rateLimit url (cfg.retryDelayMs * 2)), tr)
    | .status code body =>
      if code < 400 then
        match parse body with
        | some json => (.inl json, tr)
        | Option.none => (.inr (.scraping url Option.none), tr)
      else
        if cfg.maxFetchRetries < attempt then (.inr (.network url false), tr)
        else fetchJsonApiGo cfg resp parse url (attempt + 1) remaining
          { tr with retrySleeps := tr.retrySleeps ++ [cfg.retryDelayMs] }
    | .timeout =>
      if cfg.maxFetchRetries < attempt then (.inr (.network url true), tr)
      else fetchJsonApiGo cfg resp parse url (attempt + 1) remaining
        { tr with retrySleeps := tr.retrySleeps ++ [cfg.retryDelayMs] }
    | .reqError =>
      if cfg.maxFetchRetries < attempt then (.inr (.network url false), tr)
      else fetchJsonApiGo cfg resp parse url (attempt + 1) remaining
        { tr with retrySleeps := tr.retrySleeps ++ [cfg.retryDelayMs] }

def fetch_json_api (cfg : FetchCfg) (resp : ℕ → HttpResp)
    (parse : String → Option String) (url : String) :
    (String ⊕ FetchError) × FetchTrace :=
  fetchJsonApiGo cfg resp parse url 1 (cfg.maxFetchRetries + 1) {}

/-! ## `DaftScraper.scrape_and_upload` — dedup filter
(`daft_scraper.py` lines 374–377)

`new_properties = [prop for prop in property_listings if prop.id not in
existing_ids]`: a listing with `id is None` always passes (`None` is never
a member of the integer id set). -/

def filterNewProperties (existing_ids : List ℤ) (props : List PropertyListing) :
    List PropertyListing :=
  props.filter (fun p =>
    match p.id with
    | some i => decide (i ∉ existing_ids)
    | Option.none => true)

/-! ## `DaftScraper.scrape_limited_pages` (`daft_scraper.py` lines 220–297)

External collaborators are oracles:
* `fetchNext page` — `fetch_search_results_json` for that page: the parsed
  `__NEXT_DATA__` (its paging block and the candidates
  `parse_next_data_search_results` extracts from it), or `none` when the
  fetch/extraction failed (the Python function catches everything and
  returns `None`);
* `enhance` — the per-listing detail step (JSON detail fetch, HTML detail
  fallback, or keep-as-is on error): every branch of the source appends
  exactly one property and increments `properties_scraped` exactly once,
  so the abstraction keeps the counting exact. -/

structure NextPage : Type where
  /-- `paging.get("totalResults", 0)` -/
  totalResults : ℤ := 0
  /-- `paging.get("totalPages", 1)` -/
  totalPages : ℕ := 1
  /-- the candidates extracted by `parse_next_data_search_results` -/
  listings : List ScrapedProperty := []
  deriving Repr

structure LimitedEnv : Type where
  fetchNext : ℕ → Option NextPage
  enhance : ScrapedProperty → ScrapedProperty

structure LimitedState : Type where
  /-- how many result pages were fetched (`fetch_search_results_json` calls) -/
  pagesFetched : ℕ := 0
  /-- `properties_scraped` -/
  scraped : ℕ := 0
  /-- `all_properties` -/
  acc : List ScrapedProperty := []
  deriving Repr

/-- The `while current_page <= total_pages and properties_scraped <
max_properties` loop; `fuel` bounds the iteration count (the theorems
are fuel-independent or instantiate it large enough). -/
def limitedGo (env : LimitedEnv) (maxProperties : ℕ) :
    ℕ → ℕ → ℕ → LimitedState → LimitedState
  | 0, _, _, st => st
  | fuel + 1, currentPage, totalPages, st =>
    if currentPage ≤ totalPages ∧ st.scraped < maxProperties then
      match env.fetchNext currentPage with
      | Option.none =>
        limitedGo env maxProperties fuel (currentPage + 1) totalPages
          { st with pagesFetched := st.pagesFetched + 1 }
      | some nd =>
        let totalPages' := if currentPage = 1 then
            (if 0 < nd.totalResults then nd.totalPages else 1)
          else totalPages
        let props := nd.listings
        if props = [] then
          limitedGo env maxProperties fuel (currentPage + 1) totalPages'
            { st with pagesFetched := st.pagesFetched + 1 }
        else
          let remaining := maxProperties - st.scraped
          let trimmed := if remaining < props.length then props.take remaining
            else props
          let kept := trimmed.filter (fun p => p.url ≠ "")
          limitedGo env maxProperties fuel (currentPage + 1) totalPages'
            { pagesFetched := st.pagesFetched + 1
              scraped := st.scraped + kept.length
              acc := st.acc ++ kept.map env.enhance }
    else st

def scrape_limited_pages (env : LimitedEnv) (maxProperties fuel : ℕ) :
    LimitedState :=
  limitedGo env maxProperties fuel 1 1 {}

/-- The page total the upstream structured payload reports for the run
(the value `total_pages` holds after page 1 is processed). -/
def reportedTotalPages (env : LimitedEnv) : ℕ :=
  match env.fetchNext 1 with
  | some nd => if 0 < nd.totalResults then nd.totalPages else 1
  | Option.none => 1

/-! ## Helper lemmas about the string primitives -/

lemma char_toNat_le_of_le {a b : Char} (h : a ≤ b) : a.val.toNat ≤ b.val.toNat := h

lemma isDigit_toNat {c : Char} (h : c.isDigit = true) :
    48 ≤ c.val.toNat ∧ c.val.toNat ≤ 57 := by
  simp only [Char.isDigit, Bool.and_eq_true, decide_eq_true_eq] at h
  exact ⟨h.1, h.2⟩

lemma pyLowerChar_of_isDigit {c : Char} (h : c.isDigit = true) :
    pyLowerChar c = c := by
  obtain ⟨h1, h2⟩ := isDigit_toNat h
  unfold pyLowerChar
  rw [if_neg]
  rintro ⟨ha, hz⟩
  have : (65:ℕ) ≤ c.val.toNat := ha
  omega

lemma pyLower_append (a b : List Char) :
    pyLower (a ++ b) = pyLower a ++ pyLower b := List.map_append _ a b

lemma pyLower_digits {ds : List Char} (h : ∀ c ∈ ds, c.isDigit = true) :
    pyLower ds = ds := by
  unfold pyLower
  exact List.map_congr_left (fun c hc => pyLowerChar_of_isDigit (h c hc)) |>.trans
    (List.map_id ds)

lemma pyIsSpace_of_isDigit {c : Char} (h : c.isDigit = true) :
    pyIsSpace c = false := by
  obtain ⟨h1, h2⟩ := isDigit_toNat h
  unfold pyIsSpace
  simp only [Bool.or_eq_false_iff, decide_eq_false_iff_not]
  refine ⟨⟨⟨⟨⟨?_, ?_⟩, ?_⟩, ?_⟩, ?_⟩, ?_⟩ <;>
    (rintro rfl; exact absurd h1 (by decide))

lemma munch_nil (p : Char → Bool) : munch p [] = ([], []) := rfl

lemma munch_cons_pos {p : Char → Bool} {c : Char} (t : List Char)
    (h : p c = true) :
    munch p (c :: t) = ((c :: (munch p t).1), (munch p t).2) := by
  simp [munch, h]

lemma munch_cons_neg {p : Char → Bool} {c : Char} (t : List Char)
    (h : p c = false) : munch p (c :: t) = ([], c :: t) := by
  simp [munch, h]

lemma munch_append_of_all {p : Char → Bool} {ds : List Char} (r : List Char)
    (h : ∀ c ∈ ds, p c = true) :
    munch p (ds ++ r) = (ds ++ (munch p r).1, (munch p r).2) := by
  induction ds with
  | nil => simp
  | cons c t ih =>
    have hc : p c = true := h c (List.mem_cons_self c t)
    simp only [List.cons_append, munch_cons_pos _ hc]
    rw [ih (fun x hx => h x (List.mem_cons_of_mem c hx))]

lemma munch_stop {p : Char → Bool} {ds r : List Char}
    (h : ∀ c ∈ ds, p c = true)
    (hr : r = [] ∨ ∃ c t, r = c :: t ∧ p c = false) :
    munch p (ds ++ r) = (ds, r) := by
  rw [munch_append_of_all r h]
  rcases hr with rfl | ⟨c, t, rfl, hc⟩
  · simp [munch_nil]
  · simp [munch_cons_neg t hc]

lemma stripPrefixL_append (p r : List Char) :
    stripPrefixL p (p ++ r) = some r := by
  induction p with
  | nil => simp [stripPrefixL]
  | cons c t ih => simpa [stripPrefixL] using ih

lemma scanFirst_cons_some {α : Type} {m : List Char → Option α} {c : Char}
    {t : List Char} {r : α} (h : m (c :: t) = some r) :
    scanFirst m (c :: t) = some r := by
  simp [scanFirst, h]

lemma mem_of_listContains {needle hay : List Char}
    (h : listContains needle hay = true) : ∀ c ∈ needle, c ∈ hay := by
  induction hay with
  | nil =>
    simp only [listContains] at h
    rw [List.isPrefixOf_iff_prefix] at h
    intro c hc
    exact absurd (List.prefix_nil.mp h ▸ hc) (List.not_mem_nil c)
  | cons x t ih =>
    simp only [listContains, Bool.or_eq_true] at h
    intro c hc
    rcases h with h | h
    · exact (List.isPrefixOf_iff_prefix.mp h).subset hc
    · exact List.mem_cons_of_mem x (ih h c hc)

lemma not_listContains {needle hay : List Char} {x : Char}
    (hx : x ∈ needle) (h : ∀ c ∈ hay, c ≠ x) :
    listContains needle hay = false := by
  by_contra hc
  rw [Bool.not_eq_false] at hc
  exact h x (mem_of_listContains hc x hx) rfl

lemma listContains_nil_left (hay : List Char) :
    listContains [] hay = true := by
  cases hay <;> simp [listContains]

lemma listContains_append_mid (pre needle post : List Char) :
    listContains needle (pre ++ (needle ++ post)) = true := by
  induction pre with
  | nil =>
    cases needle with
    | nil => exact listContains_nil_left _
    | cons c t =>
      simp only [List.nil_append, List.cons_append, listContains,
        Bool.or_eq_true]
      left
      rw [List.isPrefixOf_iff_prefix]
      exact (List.prefix_append _ _)
  | cons x t ih =>
    cases needle with
    | nil => exact listContains_nil_left _
    | cons c ct =>
      simp only [List.cons_append, listContains, Bool.or_eq_true]
      right
      exact ih

lemma splitOnChar_of_not_mem {sep : Char} {l : List Char}
    (h : ∀ c ∈ l, c ≠ sep) : splitOnChar sep l = [l] := by
  induction l with
  | nil => rfl
  | cons c t ih =>
    have hc : c ≠ sep := h c (List.mem_cons_self c t)
    simp only [splitOnChar, if_neg hc,
      ih (fun x hx => h x (List.mem_cons_of_mem c hx))]

lemma pyFloat_digits {ds : List Char} (h0 : ds ≠ [])
    (h : ∀ c ∈ ds, c.isDigit = true) :
    pyFloat ds = some ((digitsVal ds : ℚ)) := by
  have hsplit : splitDot ds = [ds] := by
    apply splitOnChar_of_not_mem
    intro c hc heq
    subst heq
    exact absurd (h _ hc) (by decide)
  simp only [pyFloat, hsplit]
  rw [if_pos ⟨h0, List.all_eq_true.mpr (fun c hc => h c hc)⟩]

lemma filter_ne_comma_of_digits {ds : List Char}
    (h : ∀ c ∈ ds, c.isDigit = true) : ds.filter (· ≠ ',') = ds := by
  apply List.filter_eq_self.mpr
  intro c hc
  simp only [decide_eq_true_eq]
  intro heq
  subst heq
  exact absurd (h _ hc) (by decide)

lemma ne_of_isDigit_of_out {c x : Char} (h : c.isDigit = true)
    (hx : x.val.toNat < 48 ∨ 57 < x.val.toNat) : c ≠ x := by
  rintro rfl
  obtain ⟨h1, h2⟩ := isDigit_toNat h
  omega

lemma munch_space_digit {c : Char} (t : List Char) (h : c.isDigit = true) :
    munch pyIsSpace (' ' :: c :: t) = ([' '], c :: t) := by
  rw [munch_cons_pos _ (by decide), munch_cons_neg _ (pyIsSpace_of_isDigit h)]

/-- Evaluation of the bedroom-range matcher on `"<ds1> to <ds2> bed"`. -/
lemma matchBedsRangeAt_to {ds1 ds2 : List Char} (h1ne : ds1 ≠ [])
    (h1 : ∀ c ∈ ds1, c.isDigit = true) (h2ne : ds2 ≠ [])
    (h2 : ∀ c ∈ ds2, c.isDigit = true) :
    matchBedsRangeAt (ds1 ++ ' ' :: 't' :: 'o' :: ' ' ::
      (ds2 ++ [' ', 'b', 'e', 'd'])) = some (ds1, ds2) := by
  obtain ⟨c2, t2, rfl⟩ := List.exists_cons_of_ne_nil h2ne
  have hc2 : c2.isDigit = true := h2 c2 (List.mem_cons_self _ _)
  have e1 := munch_stop (p := Char.isDigit)
    (r := ' ' :: 't' :: 'o' :: ' ' :: ((c2 :: t2) ++ [' ', 'b', 'e', 'd']))
    h1 (Or.inr ⟨' ', _, rfl, by decide⟩)
  have e2 : munch pyIsSpace
      (' ' :: 't' :: 'o' :: ' ' :: ((c2 :: t2) ++ [' ', 'b', 'e', 'd'])) =
      ([' '], 't' :: 'o' :: ' ' :: ((c2 :: t2) ++ [' ', 'b', 'e', 'd'])) := by
    rw [munch_cons_pos _ (by decide), munch_cons_neg _ (by decide)]
  have e3 : stripPrefixL ['t', 'o']
      ('t' :: 'o' :: ' ' :: ((c2 :: t2) ++ [' ', 'b', 'e', 'd'])) =
      some (' ' :: ((c2 :: t2) ++ [' ', 'b', 'e', 'd'])) :=
    stripPrefixL_append ['t', 'o'] _
  have e4 := munch_space_digit (t := t2 ++ [' ', 'b', 'e', 'd']) hc2
  have e5 := @munch_stop Char.isDigit (c2 :: t2)
    [' ', 'b', 'e', 'd'] h2 (Or.inr ⟨' ', _, rfl, by decide⟩)
  simp only [List.cons_append] at e1 e2 e3 e4 e5
  simp only [matchBedsRangeAt, List.cons_append, Option.bind_eq_bind, e1, e2,
    e3, e4, e5, Option.some_bind, if_neg h1ne]
  simp [munch, stripPrefixL, pyIsSpace]

/-- Evaluation of the bedroom-range matcher on `"<ds1>-<ds2> bed"`. -/
lemma matchBedsRangeAt_dash {ds1 ds2 : List Char} (h1ne : ds1 ≠ [])
    (h1 : ∀ c ∈ ds1, c.isDigit = true) (h2ne : ds2 ≠ [])
    (h2 : ∀ c ∈ ds2, c.isDigit = true) :
    matchBedsRangeAt (ds1 ++ '-' :: (ds2 ++ [' ', 'b', 'e', 'd'])) =
      some (ds1, ds2) := by
  obtain ⟨c2, t2, rfl⟩ := List.exists_cons_of_ne_nil h2ne
  have hc2 : c2.isDigit = true := h2 c2 (List.mem_cons_self _ _)
  have e1 := munch_stop (p := Char.isDigit)
    (r := '-' :: ((c2 :: t2) ++ [' ', 'b', 'e', 'd']))
    h1 (Or.inr ⟨'-', _, rfl, by decide⟩)
  have e2 : munch pyIsSpace ('-' :: ((c2 :: t2) ++ [' ', 'b', 'e', 'd'])) =
      ([], '-' :: ((c2 :: t2) ++ [' ', 'b', 'e', 'd'])) :=
    munch_cons_neg _ (by decide)
  have e3 : stripPrefixL ['t', 'o'] ('-' :: ((c2 :: t2) ++ [' ', 'b', 'e', 'd']))
      = none := rfl
  have e4 : stripPrefixL ['-'] ('-' :: ((c2 :: t2) ++ [' ', 'b', 'e', 'd'])) =
      some ((c2 :: t2) ++ [' ', 'b', 'e', 'd']) := stripPrefixL_append ['-'] _
  have e5 : munch pyIsSpace ((c2 :: t2) ++ [' ', 'b', 'e', 'd']) =
      ([], (c2 :: t2) ++ [' ', 'b', 'e', 'd']) := by
    rw [List.cons_append, munch_cons_neg _ (pyIsSpace_of_isDigit hc2)]
  have e6 := @munch_stop Char.isDigit (c2 :: t2)
    [' ', 'b', 'e', 'd'] h2 (Or.inr ⟨' ', _, rfl, by decide⟩)
  simp only [List.cons_append] at e1 e2 e3 e4 e5 e6
  simp only [matchBedsRangeAt, List.cons_append, Option.bind_eq_bind, e1, e2,
    e3, e4, e5, e6, Option.some_bind, if_neg h1ne]
  simp [munch, stripPrefixL, pyIsSpace]

lemma parse_beds_str_range_to {ds1 ds2 : List Char} (h1ne : ds1 ≠ [])
    (h1 : ∀ c ∈ ds1, c.isDigit = true) (h2ne : ds2 ≠ [])
    (h2 : ∀ c ∈ ds2, c.isDigit = true) :
    parse_beds_str ⟨ds1 ++ " to ".data ++ ds2 ++ " Bed".data⟩ =
      some ⟨Min.min (digitsVal ds1) (digitsVal ds2),
        Max.max (digitsVal ds1) (digitsVal ds2), false⟩ := by
  have hlow1 : pyLower " to ".data = [' ', 't', 'o', ' '] := by decide
  have hlow2 : pyLower " Bed".data = [' ', 'b', 'e', 'd'] := by decide
  have hnorm : pyLower (ds1 ++ " to ".data ++ ds2 ++ " Bed".data) =
      ds1 ++ ' ' :: 't' :: 'o' :: ' ' :: (ds2 ++ [' ', 'b', 'e', 'd']) := by
    rw [pyLower_append, pyLower_append, pyLower_append, pyLower_digits h1,
      pyLower_digits h2, hlow1, hlow2]
    simp only [List.append_assoc, List.cons_append, List.nil_append]
  have hstudio : listContains "studio".data
      (ds1 ++ ' ' :: 't' :: 'o' :: ' ' :: (ds2 ++ [' ', 'b', 'e', 'd'])) =
      false := by
    apply not_listContains (x := 's') (by decide)
    intro c hc
    simp only [List.mem_append, List.mem_cons, List.not_mem_nil,
      or_false] at hc
    rcases hc with hc1 | rfl | rfl | rfl | rfl | hc2 | rfl | rfl | rfl | rfl
    case inl => exact ne_of_isDigit_of_out (h1 c hc1) (by decide)
    case inr.inr.inr.inr.inr.inl =>
      exact ne_of_isDigit_of_out (h2 c hc2) (by decide)
    all_goals decide
  obtain ⟨c1, t1, rfl⟩ := List.exists_cons_of_ne_nil h1ne
  have hmatch := matchBedsRangeAt_to h1ne h1 h2ne h2
  have hscan : scanFirst matchBedsRangeAt
      ((c1 :: t1) ++ ' ' :: 't' :: 'o' :: ' ' :: (ds2 ++ [' ', 'b', 'e', 'd']))
      = some (c1 :: t1, ds2) := by
    rw [List.cons_append]
    exact scanFirst_cons_some (by rw [← List.cons_append]; exact hmatch)
  simp only [parse_beds_str, hnorm, hstudio, Bool.false_eq_true, if_false,
    hscan]

lemma parse_beds_str_range_dash {ds1 ds2 : List Char} (h1ne : ds1 ≠ [])
    (h1 : ∀ c ∈ ds1, c.isDigit = true) (h2ne : ds2 ≠ [])
    (h2 : ∀ c ∈ ds2, c.isDigit = true) :
    parse_beds_str ⟨ds1 ++ "-".data ++ ds2 ++ " Bed".data⟩ =
      some ⟨Min.min (digitsVal ds1) (digitsVal ds2),
        Max.max (digitsVal ds1) (digitsVal ds2), false⟩ := by
  have hlow2 : pyLower " Bed".data = [' ', 'b', 'e', 'd'] := by decide
  have hlow1 : pyLower "-".data = ['-'] := by decide
  have hnorm : pyLower (ds1 ++ "-".data ++ ds2 ++ " Bed".data) =
      ds1 ++ '-' :: (ds2 ++ [' ', 'b', 'e', 'd']) := by
    rw [pyLower_append, pyLower_append, pyLower_append, pyLower_digits h1,
      pyLower_digits h2, hlow1, hlow2]
    simp only [List.append_assoc, List.cons_append, List.nil_append]
  have hstudio : listContains "studio".data
      (ds1 ++ '-' :: (ds2 ++ [' ', 'b', 'e', 'd'])) = false := by
    apply not_listContains (x := 's') (by decide)
    intro c hc
    simp only [List.mem_append, List.mem_cons, List.not_mem_nil,
      or_false] at hc
    rcases hc with hc1 | rfl | hc2 | rfl | rfl | rfl | rfl
    case inl => exact ne_of_isDigit_of_out (h1 c hc1) (by decide)
    case inr.inr.inl => exact ne_of_isDigit_of_out (h2 c hc2) (by decide)
    all_goals decide
  obtain ⟨c1, t1, rfl⟩ := List.exists_cons_of_ne_nil h1ne
  have hmatch := matchBedsRangeAt_dash h1ne h1 h2ne h2
  have hscan : scanFirst matchBedsRangeAt
      ((c1 :: t1) ++ '-' :: (ds2 ++ [' ', 'b', 'e', 'd']))
      = some (c1 :: t1, ds2) := by
    rw [List.cons_append]
    exact scanFirst_cons_some (by rw [← List.cons_append]; exact hmatch)
  simp only [parse_beds_str, hnorm, hstudio, Bool.false_eq_true, if_false,
    hscan]

lemma parse_beds_str_studio {s : String}
    (h : listContains "studio".data (pyLower s.data) = true) :
    parse_beds_str s = some ⟨1, 1, true⟩ := by
  simp only [parse_beds_str, h, if_true]

/-! ## Claim theorems -/

/-- C9: for every bedroom string of the form `"N to M Bed"` or `"N-M Bed"`
(`N`, `M` decimal numerals), `parse_beds` returns
`{min: min(N,M), max: max(N,M)}`; and for every string containing
`"studio"` in any case and with any surrounding text (i.e. whose
lower-casing contains `"studio"`), it returns
`{min: 1, max: 1, is_studio: true}`. -/
theorem C9_beds_normalizer :
    (∀ ds1 ds2 : List Char, ds1 ≠ [] → (∀ c ∈ ds1, c.isDigit = true) →
      ds2 ≠ [] → (∀ c ∈ ds2, c.isDigit = true) →
      parse_beds_str ⟨ds1 ++ " to ".data ++ ds2 ++ " Bed".data⟩ =
        some ⟨Min.min (digitsVal ds1) (digitsVal ds2),
          Max.max (digitsVal ds1) (digitsVal ds2), false⟩ ∧
      parse_beds_str ⟨ds1 ++ "-".data ++ ds2 ++ " Bed".data⟩ =
        some ⟨Min.min (digitsVal ds1) (digitsVal ds2),
          Max.max (digitsVal ds1) (digitsVal ds2), false⟩) ∧
    (∀ s : String, listContains "studio".data (pyLower s.data) = true →
      parse_beds_str s = some ⟨1, 1, true⟩) :=
  ⟨fun _ _ h1 h2 h3 h4 =>
    ⟨parse_beds_str_range_to h1 h2 h3 h4,
     parse_beds_str_range_dash h1 h2 h3 h4⟩,
   fun _ h => parse_beds_str_studio h⟩

/-- Witness for C9 at concrete inputs `"4 to 2 Bed"`, `"4-2 Bed"` and
`"Luxury STUDIO Apartment"`. -/
theorem C9_beds_normalizer_witness :
    parse_beds_str "4 to 2 Bed" = some ⟨2, 4, false⟩ ∧
    parse_beds_str "4-2 Bed" = some ⟨2, 4, false⟩ ∧
    parse_beds_str "Luxury STUDIO Apartment" = some ⟨1, 1, true⟩ := by
  refine ⟨?_, ?_, ?_⟩
  · exact (C9_beds_normalizer.1 ['4'] ['2'] (by decide) (by decide)
      (by decide) (by decide)).1
  · exact (C9_beds_normalizer.1 ['4'] ['2'] (by decide) (by decide)
      (by decide) (by decide)).2
  · exact C9_beds_normalizer.2 "Luxury STUDIO Apartment" (by decide)

/-- C10: for every base URL and every input URL, the property-info
extraction never raises (it is a total function) and returns either
`(None, None)`, or the pair `(id, slug)` where `id` is the last path
segment of the (base-stripped) URL, consists only of digits and is
non-empty, and `slug` is the second-to-last segment. -/
theorem C10_extract_property_info :
    ∀ base url : String,
      extract_property_info_from_url base url = (Option.none, Option.none) ∨
      (3 ≤ (urlParts base url).length ∧
        (urlParts base url).getLastD [] ≠ [] ∧
        ((urlParts base url).getLastD []).all Char.isDigit = true ∧
        extract_property_info_from_url base url =
          (some ⟨(urlParts base url).getLastD []⟩,
           some ⟨(urlParts base url).reverse.getD 1 []⟩)) := by
  intro base url
  unfold extract_property_info_from_url
  by_cases h : 3 ≤ (urlParts base url).length ∧
      (urlParts base url).getLastD [] ≠ [] ∧
      ((urlParts base url).getLastD []).all Char.isDigit = true
  · right
    refine ⟨h.1, h.2.1, h.2.2, ?_⟩
    rw [if_pos]
    exact ⟨h.1, h.2.1, h.2.2⟩
  · left
    rw [if_neg]
    intro hc
    exact h ⟨hc.1, hc.2.1, hc.2.2⟩

/-- C7 (amended): the detail-page merge fills the energy rating only when
it is absent (a populated BER keeps its value), while coordinates found on
the detail page overwrite the candidate's coordinates unconditionally;
coordinates are preserved only when the detail page yields none. -/
theorem C7_detail_merge_amended :
    ∀ (page : DetailHtml) (pd : ScrapedProperty),
      (berFalsy pd.ber = false →
        (parse_property_details page pd).ber = pd.ber) ∧
      (page.latLng = Option.none →
        (parse_property_details page pd).latitude = pd.latitude ∧
        (parse_property_details page pd).longitude = pd.longitude) ∧
      (∀ la lo : ℚ, page.latLng = some (la, lo) →
        (parse_property_details page pd).latitude = some la ∧
        (parse_property_details page pd).longitude = some lo) := by
  intro page pd
  refine ⟨?_, ?_, ?_⟩
  · intro hber
    unfold parse_property_details
    cases h : page.latLng with
    | none => simp [hber]
    | some p => cases p with
      | mk la lo => simp [hber]
  · intro h
    cases hb : page.berText <;>
      simp only [parse_property_details, h, hb] <;>
      by_cases hber : berFalsy pd.ber = true <;>
      simp [hber]
  · intro la lo h
    cases hb : page.berText <;>
      simp only [parse_property_details, h, hb] <;>
      by_cases hber : berFalsy pd.ber = true <;>
      simp [hber]

/-- The populated candidate used by the C7 witness. -/
def berPopulated : ScrapedProperty :=
  { address := "a", url := "u", id := "1", tagline := "t",
    price_string := "", beds_string := "", baths_string := "",
    property_type_string := "", ber := some "B1", latitude := some 1,
    longitude := some 2 }

/-- Witness for C7 (amended) at a populated candidate: a populated BER
survives the merge, coordinates survive when the detail page has none,
and detail-page coordinates land in the result. -/
theorem C7_detail_merge_amended_witness :
    (parse_property_details { latLng := Option.none, berText := some "BER C2" }
        berPopulated).ber = berPopulated.ber ∧
    ((parse_property_details { latLng := Option.none, berText := some "BER C2" }
        berPopulated).latitude = berPopulated.latitude ∧
     (parse_property_details { latLng := Option.none, berText := some "BER C2" }
        berPopulated).longitude = berPopulated.longitude) ∧
    ((parse_property_details { latLng := some (53, -6), berText := Option.none }
        berPopulated).latitude = some 53 ∧
     (parse_property_details { latLng := some (53, -6), berText := Option.none }
        berPopulated).longitude = some (-6)) :=
  ⟨(C7_detail_merge_amended { latLng := Option.none, berText := some "BER C2" }
      berPopulated).1 (by decide),
   (C7_detail_merge_amended { latLng := Option.none, berText := some "BER C2" }
      berPopulated).2.1 rfl,
   (C7_detail_merge_amended { latLng := some (53, -6), berText := Option.none }
      berPopulated).2.2 53 (-6) rfl⟩

/-- C7 counterexample: a candidate whose coordinates are already populated
(`latitude = 1`, `longitude = 2`) does not keep them when the detail page
carries coordinates — the merge overwrites them, contradicting the claim
that populated fields keep their value. -/
theorem C7_detail_merge_counterexample :
    (parse_property_details
        { latLng := some (53, -6) }
        { address := "a", url := "u", id := "1", tagline := "t",
          price_string := "", beds_string := "", baths_string := "",
          property_type_string := "", latitude := some 1,
          longitude := some 2 }).latitude ≠ some 1 := by
  norm_num [parse_property_details, berFalsy]

lemma foldl_ite_add_eq_sum (ok : ℕ → Bool) (f : ℕ → ℕ) :
    ∀ (n : ℕ) (s : ℕ),
      (List.range n).foldl (fun acc i => if ok i then acc + f i else acc) s =
        s + ∑ i ∈ Finset.range n, (if ok i then f i else 0) := by
  intro n
  induction n with
  | zero => simp
  | succ n ih =>
    intro s
    rw [List.range_succ, List.foldl_append, ih, Finset.sum_range_succ]
    by_cases h : ok n <;> simp [h, Nat.add_assoc]

/-- C6: for every list of new records and every pattern of per-batch
upsert outcomes, the upload phase attempts every batch (a failing batch is
skipped, not fatal), the final count is exactly the sum of the record
counts of the batches whose upsert succeeded, and the run result's
`success` flag is `true`. -/
theorem C6_batch_failure_isolation :
    ∀ (new_properties : List PropertyListing) (ok : ℕ → Bool),
      (uploadPhase new_properties ok).success = true ∧
      (uploadPhase new_properties ok).attempted =
        (chunks 100 new_properties).map upsertDataList ∧
      (uploadPhase new_properties ok).count =
        ∑ i ∈ Finset.range (chunks 100 new_properties).length,
          (if ok i then
            (((chunks 100 new_properties).map upsertDataList).getD i []).length
           else 0) := by
  intro props ok
  by_cases h : props = []
  · subst h
    simp [uploadPhase, chunks, chunksAux]
  · unfold uploadPhase
    rw [if_neg h]
    refine ⟨rfl, rfl, ?_⟩
    simp only [foldl_ite_add_eq_sum, Nat.zero_add]

/-! ## Lemmas for the dedup claim (C2) -/

lemma join_chunksAux {α : Type} (n : ℕ) (hn : n ≠ 0) :
    ∀ (fuel : ℕ) (l : List α), l.length ≤ fuel →
      (chunksAux n fuel l).flatten = l := by
  intro fuel
  induction fuel with
  | zero =>
    intro l hl
    rw [List.length_eq_zero.mp (Nat.le_zero.mp hl)]
    rfl
  | succ f ih =>
    intro l hl
    cases l with
    | nil => rfl
    | cons c t =>
      rw [chunksAux, if_neg hn]
      simp only [List.flatten_cons]
      rw [ih ((c :: t).drop n) (by
        simp only [List.length_drop, List.length_cons]
        simp only [List.length_cons] at hl
        omega)]
      exact List.take_append_drop n (c :: t)

theorem join_chunks {α : Type} (n : ℕ) (hn : n ≠ 0) (l : List α) :
    (chunks n l).flatten = l :=
  join_chunksAux n hn l.length l (le_refl _)

lemma mem_of_mem_chunks {α : Type} {n : ℕ} (hn : n ≠ 0) {l b : List α}
    (hb : b ∈ chunks n l) {x : α} (hx : x ∈ b) : x ∈ l := by
  rw [← join_chunks n hn l]
  exact List.mem_flatten.mpr ⟨b, hb, hx⟩

lemma upsertDataListGo_subset :
    ∀ (props : List PropertyListing) (seen : List ℤ),
      ∀ x ∈ upsertDataListGo seen props, x ∈ props := by
  intro props
  induction props with
  | nil => intro seen x hx; exact absurd hx (List.not_mem_nil x)
  | cons p rest ih =>
    intro seen x hx
    unfold upsertDataListGo at hx
    split at hx
    · exact List.mem_cons_of_mem p (ih seen x hx)
    · rcases List.mem_cons.mp hx with rfl | hx'
      · exact List.mem_cons_self _ _
      · exact List.mem_cons_of_mem p (ih _ x hx')

lemma upsertDataListGo_count {i : ℤ} (hi : i ≠ 0) :
    ∀ (props : List PropertyListing) (seen : List ℤ),
      (upsertDataListGo seen props).countP
          (fun p => decide (p.id = some i)) ≤
        (if i ∈ seen then 0 else 1) := by
  intro props
  induction props with
  | nil => intro seen; simp [upsertDataListGo]
  | cons p rest ih =>
    intro seen
    rcases hid : p.id with _ | j
    · -- a record with no id is always kept and never enters `seen`
      have hstep : upsertDataListGo seen (p :: rest) =
          p :: upsertDataListGo seen rest := by
        simp only [upsertDataListGo]
        rw [hid]
        simp [idTruthy]
      rw [hstep, List.countP_cons]
      have hno : (decide (p.id = some i)) = false := by simp [hid]
      rw [hno]
      simpa using ih seen
    · by_cases hj0 : j = 0
      · -- a zero id is falsy: kept, and `seen` is unchanged
        subst hj0
        have hstep : upsertDataListGo seen (p :: rest) =
            p :: upsertDataListGo seen rest := by
          simp only [upsertDataListGo]
          rw [hid]
          simp [idTruthy]
        rw [hstep, List.countP_cons]
        have hno : (decide (p.id = some i)) = false := by
          simp [hid]
          omega
        rw [hno]
        simpa using ih seen
      · -- a truthy id
        by_cases hmem : j ∈ seen
        · -- duplicate within the batch: skipped
          have hstep : upsertDataListGo seen (p :: rest) =
              upsertDataListGo seen rest := by
            simp only [upsertDataListGo]
            rw [hid]
            rw [if_pos ⟨by simp [idTruthy, hj0], j, rfl, hmem⟩]
          rw [hstep]
          exact ih seen
        · -- kept; `j` is added to `seen`
          have hstep : upsertDataListGo seen (p :: rest) =
              p :: upsertDataListGo (j :: seen) rest := by
            simp only [upsertDataListGo]
            rw [hid]
            rw [if_neg (by rintro ⟨-, k, hk, hkmem⟩; cases hk; exact hmem hkmem)]
            simp [idTruthy, hj0]
          rw [hstep, List.countP_cons]
          by_cases hji : j = i
          · subst hji
            have hcnt : (decide (p.id = some j)) = true := by simp [hid]
            rw [hcnt]
            have h2 := ih (j :: seen)
            rw [if_pos (List.mem_cons_self j seen)] at h2
            rw [if_neg hmem]
            simp only [if_pos trivial]
            omega
          · have hcnt : (decide (p.id = some i)) = false := by
              simp [hid]
              omega
            rw [hcnt]
            have h2 := ih (j :: seen)
            have : i ∈ j :: seen ↔ i ∈ seen := by
              simp [List.mem_cons]
              intro hij
              exact absurd hij.symm hji
            rw [if_congr this rfl rfl] at h2
            simpa using h2

/-- C2 (amended): in `scrape_and_upload`, no record whose id lies in the
known-id set reaches any upsert payload, and within each single batch
payload a (non-null, non-zero) id occurs at most once — but in-run
deduplication is only per batch: an id duplicated across different batches
of the same run is emitted once per batch (the database upsert's
`on_conflict="id"` then makes persistence last-write-wins). -/
theorem C2_dedup_amended :
    ∀ (property_listings : List PropertyListing) (existing_ids : List ℤ)
      (ok : ℕ → Bool),
      ∀ b ∈ (uploadPhase (filterNewProperties existing_ids property_listings)
          ok).attempted,
        (∀ row ∈ b, ∀ i : ℤ, row.id = some i → i ∉ existing_ids) ∧
        (∀ i : ℤ, i ≠ 0 →
          b.countP (fun p => decide (p.id = some i)) ≤ 1) := by
  intro props K ok b hb
  have hattempted : b ∈ (chunks 100 (filterNewProperties K props)).map
      upsertDataList := by
    unfold uploadPhase at hb
    split at hb
    · simp at hb
    · exact hb
  obtain ⟨chunk, hchunk, rfl⟩ := List.mem_map.mp hattempted
  constructor
  · intro row hrow i hi
    have h1 : row ∈ chunk := upsertDataListGo_subset chunk [] row hrow
    have h2 : row ∈ filterNewProperties K props :=
      mem_of_mem_chunks (by omega) hchunk h1
    have h3 := List.of_mem_filter h2
    rw [hi] at h3
    simpa using h3
  · intro i hi
    have := upsertDataListGo_count hi chunk []
    simpa using this

/-- A one-field listing used by the C2 witness and counterexample. -/
def dupListing (i : ℤ) : PropertyListing :=
  { id := some i, url := "u", title := "t", listing_type := .rent }

/-- Witness for C2 (amended) at a concrete run: one candidate with id 5
against known-id set `{9}`. -/
theorem C2_dedup_amended_witness :
    (∀ row ∈ upsertDataList (filterNewProperties [9] [dupListing 5]),
      ∀ i : ℤ, row.id = some i → i ∉ ([9] : List ℤ)) ∧
    (∀ i : ℤ, i ≠ 0 →
      (upsertDataList (filterNewProperties [9] [dupListing 5])).countP
        (fun p => decide (p.id = some i)) ≤ 1) :=
  C2_dedup_amended [dupListing 5] [9] (fun _ => true) _ (by decide)

/-- C2 counterexample: a run of 101 new candidates whose first and last
share id 1 splits into two batches (100 + 1); id 1 appears in the payload
of each batch, so the run emits two records with the same non-null id —
the claim's "persisted at most once / never emits two records with the
same id" fails across batch boundaries. -/
theorem C2_dedup_counterexample :
    (((uploadPhase
        (filterNewProperties []
          (((List.range 100).map fun n => dupListing ((n : ℤ) + 1)) ++
            [dupListing 1]))
        (fun _ => true)).attempted).map
      (fun b => b.countP (fun p => decide (p.id = some 1)))).sum = 2 := by
  decide

/-! ## Lemmas for the page-cap claim (C3) -/

lemma limitedGo_steady_bound (env : LimitedEnv) (maxP : ℕ) :
    ∀ (fuel currentPage totalPages : ℕ) (st : LimitedState),
      2 ≤ currentPage →
      (limitedGo env maxP fuel currentPage totalPages st).pagesFetched ≤
        st.pagesFetched + (totalPages + 1 - currentPage) := by
  intro fuel
  induction fuel with
  | zero => intro c tp st _; exact Nat.le_add_right _ _
  | succ f ih =>
    intro c tp st hc
    rw [limitedGo]
    split
    case isTrue hcond =>
      have hcle : c ≤ tp := hcond.1
      have hne1 : ¬ c = 1 := by omega
      have hbound : st.pagesFetched + 1 + (tp + 1 - (c + 1)) ≤
          st.pagesFetched + (tp + 1 - c) := by omega
      cases henv : env.fetchNext c with
      | none =>
        refine le_trans (ih (c + 1) tp _ (by omega)) ?_
        simpa using hbound
      | some nd =>
        simp only [if_neg hne1]
        split
        · refine le_trans (ih (c + 1) tp _ (by omega)) ?_
          simpa using hbound
        · refine le_trans (ih (c + 1) tp _ (by omega)) ?_
          simpa using hbound
    case isFalse => exact Nat.le_add_right _ _

lemma scrape_limited_pages_bound (env : LimitedEnv) (maxP fuel : ℕ) :
    (scrape_limited_pages env maxP fuel).pagesFetched ≤
      Max.max 1 (reportedTotalPages env) := by
  unfold scrape_limited_pages
  cases fuel with
  | zero => simp [limitedGo]
  | succ f =>
    rw [limitedGo]
    split
    case isFalse => simp
    case isTrue hcond =>
      cases henv : env.fetchNext 1 with
      | none =>
        have hrep : reportedTotalPages env = 1 := by
          unfold reportedTotalPages
          rw [henv]
        refine le_trans (limitedGo_steady_bound env maxP f 2 1 _ (by omega)) ?_
        simp [hrep]
      | some nd =>
        rw [show reportedTotalPages env =
            (if 0 < nd.totalResults then nd.totalPages else 1) from by
          unfold reportedTotalPages
          rw [henv]]
        simp only [if_pos rfl]
        generalize (if 0 < nd.totalResults then nd.totalPages else 1) = T
        split
        · refine le_trans (limitedGo_steady_bound env maxP f 2 T _ (by omega)) ?_
          show 0 + 1 + (T + 1 - 2) ≤ Max.max 1 T
          omega
        · refine le_trans (limitedGo_steady_bound env maxP f 2 T _ (by omega)) ?_
          show 0 + 1 + (T + 1 - 2) ≤ Max.max 1 T
          omega

/-- C3 (amended): the markup `"N total results"` path (`get_total_pages`)
caps the page count at the configured maximum; the structured-payload path
of `scrape_limited_pages`, however, does not apply the configured cap —
its page-fetch count is bounded only by the upstream-reported `totalPages`
(and by the caller's record budget). -/
theorem C3_page_cap_amended :
    (∀ (maxPagesToFetch : ℕ), 1 ≤ maxPagesToFetch →
      ∀ spanText, get_total_pages maxPagesToFetch spanText ≤ maxPagesToFetch) ∧
    (∀ (env : LimitedEnv) (maxProperties fuel : ℕ),
      (scrape_limited_pages env maxProperties fuel).pagesFetched ≤
        Max.max 1 (reportedTotalPages env)) := by
  constructor
  · intro maxPages hmax spanText
    unfold get_total_pages
    split
    · exact hmax
    · split
      · dsimp only
        split
        · exact min_le_right _ _
        · exact hmax
      · exact hmax
  · exact fun env maxP fuel => scrape_limited_pages_bound env maxP fuel

/-- The upstream oracle used by the C3 witness and counterexample: every
page reports 1,000,000 total results spread over `tp` pages, with no
extractable listings. -/
def c3Env (tp : ℕ) : LimitedEnv :=
  { fetchNext := fun _ =>
      some { totalResults := 1000000, totalPages := tp, listings := [] }
    enhance := id }

/-- Witness for C3 (amended) at the configured default `MAX_PAGES_TO_FETCH
= 5` and a concrete markup text reporting 1,000,000 results. -/
theorem C3_page_cap_amended_witness :
    get_total_pages 5 (some "1 - 20 of 1,000,000 total results") ≤ 5 ∧
    (scrape_limited_pages (c3Env 3) 50 20).pagesFetched ≤
      Max.max 1 (reportedTotalPages (c3Env 3)) :=
  ⟨C3_page_cap_amended.1 5 (by decide) _, C3_page_cap_amended.2 _ 50 20⟩

/-- C3 counterexample: with the configured default of 5 maximum pages, a
structured payload reporting 1,000,000 total results across 6 pages makes
`scrape_limited_pages` fetch 6 result pages — more than the configured
maximum, refuting the claim for the structured-payload path. -/
theorem C3_page_cap_counterexample :
    (scrape_limited_pages (c3Env 6) 50 20).pagesFetched = 6 ∧
    ¬ (scrape_limited_pages (c3Env 6) 50 20).pagesFetched ≤ 5 := by
  constructor <;> decide

/-! ## Lemmas for the retry claims (C4, C5) -/

lemma fetchPageHtmlGo_403_success (cfg : FetchCfg) (resp : ℕ → HttpResp)
    (url : String) (body : String)
    (hsucc : resp cfg.maxFetchRetries = .status 200 body)
    (h403 : ∀ b, 1 ≤ b → b < cfg.maxFetchRetries →
      ∃ s, resp b = .status 403 s) :
    ∀ (k a rem n : ℕ) (ls : List ℕ) (pf : Bool), 1 ≤ a →
      a + k = cfg.maxFetchRetries → a + rem = cfg.maxFetchRetries + 2 →
      fetchPageHtmlGo cfg resp url a rem ⟨n, ls, pf⟩ =
        (.inl body,
         ⟨n + k + 1, ls ++ List.replicate k (cfg.retryDelayMs * 2), pf⟩) := by
  intro k
  induction k with
  | zero =>
    intro a rem n ls pf ha hak harem
    have haR : a = cfg.maxFetchRetries := by omega
    have hrem : rem = 2 := by omega
    subst hrem
    rw [show (2 : ℕ) = 1 + 1 from rfl]
    rw [fetchPageHtmlGo]
    rw [haR, hsucc]
    simp
  | succ k ih =>
    intro a rem n ls pf ha hak harem
    obtain ⟨s, hs⟩ := h403 a ha (by omega)
    obtain ⟨r', rfl⟩ := Nat.exists_eq_succ_of_ne_zero
      (show rem ≠ 0 by omega)
    rw [fetchPageHtmlGo]
    rw [hs]
    rw [if_pos (show a ≤ cfg.maxFetchRetries by omega)]
    refine Eq.trans
      (ih (a + 1) r' (n + 1) (ls ++ [cfg.retryDelayMs * 2]) pf
        (by omega) (by omega) (by omega)) ?_
    congr 1
    congr 1
    · omega
    · simp [List.append_assoc, List.singleton_append, List.replicate_succ]

lemma fetchPageHtmlGo_403_exhaust (cfg : FetchCfg) (resp : ℕ → HttpResp)
    (url : String)
    (h403 : ∀ b, ∃ s, resp b = .status 403 s) :
    ∀ (rem a n : ℕ) (ls : List ℕ) (pf : Bool), 1 ≤ rem → 1 ≤ a →
      a + rem = cfg.maxFetchRetries + 2 →
      fetchPageHtmlGo cfg resp url a rem ⟨n, ls, pf⟩ =
        (.inr (.rateLimit url (cfg.retryDelayMs * 2)),
         ⟨n + rem,
          ls ++ List.replicate (rem - 1) (cfg.retryDelayMs * 2), pf⟩) := by
  intro rem
  induction rem with
  | zero => intro a n ls pf h0; omega
  | succ r' ih =>
    intro a n ls pf _ ha harem
    obtain ⟨s, hs⟩ := h403 a
    rw [fetchPageHtmlGo]
    rw [hs]
    rcases r' with _ | r''
    · rw [if_neg (show ¬ a ≤ cfg.maxFetchRetries by omega)]
      simp
    · rw [if_pos (show a ≤ cfg.maxFetchRetries by omega)]
      refine Eq.trans
        (ih (a + 1) (n + 1) (ls ++ [cfg.retryDelayMs * 2]) pf
          (by omega) (by omega) (by omega)) ?_
      congr 1
      congr 1
      · omega
      · simp [List.append_assoc, List.singleton_append, List.replicate_succ]

lemma fetchJsonApiGo_403_success (cfg : FetchCfg) (resp : ℕ → HttpResp)
    (parse : String → Option String) (url : String) (body json : String)
    (hsucc : resp cfg.maxFetchRetries = .status 200 body)
    (hparse : parse body = some json)
    (h403 : ∀ b, 1 ≤ b → b < cfg.maxFetchRetries →
      ∃ s, resp b = .status 403 s) :
    ∀ (k a rem n : ℕ) (ls : List ℕ) (pf : Bool), 1 ≤ a →
      a + k = cfg.maxFetchRetries → a + rem = cfg.maxFetchRetries + 2 →
      fetchJsonApiGo cfg resp parse url a rem ⟨n, ls, pf⟩ =
        (.inl json,
         ⟨n + k + 1, ls ++ List.replicate k (cfg.retryDelayMs * 2), pf⟩) := by
  intro k
  induction k with
  | zero =>
    intro a rem n ls pf ha hak harem
    have haR : a = cfg.maxFetchRetries := by omega
    have hrem : rem = 2 := by omega
    subst hrem
    rw [show (2 : ℕ) = 1 + 1 from rfl]
    rw [fetchJsonApiGo]
    rw [haR, hsucc]
    simp [hparse]
  | succ k ih =>
    intro a rem n ls pf ha hak harem
    obtain ⟨s, hs⟩ := h403 a ha (by omega)
    obtain ⟨r', rfl⟩ := Nat.exists_eq_succ_of_ne_zero
      (show rem ≠ 0 by omega)
    rw [fetchJsonApiGo]
    rw [hs]
    rw [if_pos (show a ≤ cfg.maxFetchRetries by omega)]
    refine Eq.trans
      (ih (a + 1) r' (n + 1) (ls ++ [cfg.retryDelayMs * 2]) pf
        (by omega) (by omega) (by omega)) ?_
    congr 1
    congr 1
    · omega
    · simp [List.append_assoc, List.singleton_append, List.replicate_succ]

lemma fetchJsonApiGo_403_exhaust (cfg : FetchCfg) (resp : ℕ → HttpResp)
    (parse : String → Option String) (url : String)
    (h403 : ∀ b, ∃ s, resp b = .status 403 s) :
    ∀ (rem a n : ℕ) (ls : List ℕ) (pf : Bool), 1 ≤ rem → 1 ≤ a →
      a + rem = cfg.maxFetchRetries + 2 →
      fetchJsonApiGo cfg resp parse url a rem ⟨n, ls, pf⟩ =
        (.inr (.rateLimit url (cfg.retryDelayMs * 2)),
         ⟨n + rem,
          ls ++ List.replicate (rem - 1) (cfg.retryDelayMs * 2), pf⟩) := by
  intro rem
  induction rem with
  | zero => intro a n ls pf h0; omega
  | succ r' ih =>
    intro a n ls pf _ ha harem
    obtain ⟨s, hs⟩ := h403 a
    rw [fetchJsonApiGo]
    rw [hs]
    rcases r' with _ | r''
    · rw [if_neg (show ¬ a ≤ cfg.maxFetchRetries by omega)]
      simp
    · rw [if_pos (show a ≤ cfg.maxFetchRetries by omega)]
      refine Eq.trans
        (ih (a + 1) (n + 1) (ls ++ [cfg.retryDelayMs * 2]) pf
          (by omega) (by omega) (by omega)) ?_
      congr 1
      congr 1
      · omega
      · simp [List.append_assoc, List.singleton_append, List.replicate_succ]

/-- C4: against an endpoint that answers 403 on the first `N − 1` attempts
and 200 on the `N`-th (`N` = configured max retries ≥ 1), both fetch
variants succeed after exactly `N` attempts, with every inter-attempt
delay equal to double the normal retry delay; and against an endpoint
that answers 403 on every attempt, both variants fail with a RateLimited
error whose retry-after hint equals that doubled delay. -/
theorem C4_retry_backoff_403 :
    ∀ (cfg : FetchCfg) (resp : ℕ → HttpResp) (parse : String → Option String)
      (url : String) (pageNumber : ℕ) (body json : String),
      1 ≤ cfg.maxFetchRetries →
      (((∀ b, 1 ≤ b → b < cfg.maxFetchRetries → ∃ s, resp b = .status 403 s) →
        resp cfg.maxFetchRetries = .status 200 body →
        parse body = some json →
        ((fetch_page_html cfg resp url pageNumber).1 = .inl body ∧
         (fetch_page_html cfg resp url pageNumber).2.attempts =
           cfg.maxFetchRetries ∧
         (fetch_page_html cfg resp url pageNumber).2.retrySleeps =
           List.replicate (cfg.maxFetchRetries - 1) (cfg.retryDelayMs * 2)) ∧
        ((fetch_json_api cfg resp parse url).1 = .inl json ∧
         (fetch_json_api cfg resp parse url).2.attempts =
           cfg.maxFetchRetries ∧
         (fetch_json_api cfg resp parse url).2.retrySleeps =
           List.replicate (cfg.maxFetchRetries - 1) (cfg.retryDelayMs * 2))) ∧
      ((∀ b, ∃ s, resp b = .status 403 s) →
        (fetch_page_html cfg resp url pageNumber).1 =
          .inr (.rateLimit url (cfg.retryDelayMs * 2)) ∧
        (fetch_json_api cfg resp parse url).1 =
          .inr (.rateLimit url (cfg.retryDelayMs * 2)))) := by
  intro cfg resp parse url pageNumber body json hN
  constructor
  · intro h403 hsucc hparse
    constructor
    · have h1 := fetchPageHtmlGo_403_success cfg resp url body hsucc h403
        (cfg.maxFetchRetries - 1) 1 (cfg.maxFetchRetries + 1) 0 []
        (decide (pageNumber = 1)) (by omega) (by omega) (by omega)
      unfold fetch_page_html
      rw [h1]
      refine ⟨rfl, by simp; omega, by simp⟩
    · have h1 := fetchJsonApiGo_403_success cfg resp parse url body json
        hsucc hparse h403
        (cfg.maxFetchRetries - 1) 1 (cfg.maxFetchRetries + 1) 0 [] false
        (by omega) (by omega) (by omega)
      unfold fetch_json_api
      rw [h1]
      refine ⟨rfl, by simp; omega, by simp⟩
  · intro h403
    constructor
    · have h1 := fetchPageHtmlGo_403_exhaust cfg resp url h403
        (cfg.maxFetchRetries + 1) 1 0 [] (decide (pageNumber = 1))
        (by omega) (by omega) (by omega)
      unfold fetch_page_html
      rw [h1]
    · have h1 := fetchJsonApiGo_403_exhaust cfg resp parse url h403
        (cfg.maxFetchRetries + 1) 1 0 [] false
        (by omega) (by omega) (by omega)
      unfold fetch_json_api
      rw [h1]

/-- The oracles of the C4 witness: 403 twice then 200, and always-403,
against the configured defaults (`MAX_FETCH_RETRIES = 2`,
`RETRY_DELAY_MS = 2000`). -/
def c4cfg : FetchCfg := { maxFetchRetries := 2, retryDelayMs := 2000 }

def c4respOk : ℕ → HttpResp := fun a =>
  if a < 2 then .status 403 "deny" else .status 200 "body"

def c4respDeny : ℕ → HttpResp := fun _ => .status 403 "deny"

/-- Witness for C4 at the configured defaults: success on attempt 2 after
one doubled (4000 ms) delay; exhaustion yields RateLimited with
retry-after 4000 ms. -/
theorem C4_retry_backoff_403_witness :
    ((fetch_page_html c4cfg c4respOk "u" 0).1 = .inl "body" ∧
     (fetch_page_html c4cfg c4respOk "u" 0).2.attempts = 2 ∧
     (fetch_page_html c4cfg c4respOk "u" 0).2.retrySleeps = [4000]) ∧
    ((fetch_json_api c4cfg c4respOk some "u").1 = .inl "body" ∧
     (fetch_json_api c4cfg c4respOk some "u").2.attempts = 2 ∧
     (fetch_json_api c4cfg c4respOk some "u").2.retrySleeps = [4000]) ∧
    (fetch_page_html c4cfg c4respDeny "u" 0).1 =
      .inr (.rateLimit "u" 4000) ∧
    (fetch_json_api c4cfg c4respDeny some "u").1 =
      .inr (.rateLimit "u" 4000) := by
  have hOk := (C4_retry_backoff_403 c4cfg c4respOk some "u" 0 "body" "body"
    (by decide)).1
    (fun b _ h2 => ⟨"deny", by
      unfold c4respOk
      rw [if_pos (show b < 2 from h2)]⟩)
    (by decide) rfl
  have hDeny := (C4_retry_backoff_403 c4cfg c4respDeny some "u" 0 "body"
    "body" (by decide)).2 (fun b => ⟨"deny", rfl⟩)
  exact ⟨hOk.1, hOk.2, hDeny.1, hDeny.2⟩

/-- C5: for every fetch against an endpoint returning 404 on the first
attempt, both fetch variants fail after exactly one attempt — no retry,
no retry sleep — with a `ScrapingException`-kind error carrying the
requested URL and status code 404. -/
theorem C5_notfound_no_retry :
    ∀ (cfg : FetchCfg) (resp : ℕ → HttpResp) (parse : String → Option String)
      (url : String) (pageNumber : ℕ) (b404 : String),
      resp 1 = .status 404 b404 →
      ((fetch_page_html cfg resp url pageNumber).1 =
          .inr (.scraping url (some 404)) ∧
       (fetch_page_html cfg resp url pageNumber).2.attempts = 1 ∧
       (fetch_page_html cfg resp url pageNumber).2.retrySleeps = []) ∧
      ((fetch_json_api cfg resp parse url).1 =
          .inr (.scraping url (some 404)) ∧
       (fetch_json_api cfg resp parse url).2.attempts = 1 ∧
       (fetch_json_api cfg resp parse url).2.retrySleeps = []) := by
  intro cfg resp parse url pageNumber b404 h404
  constructor
  · unfold fetch_page_html
    rw [fetchPageHtmlGo]
    rw [h404]
    exact ⟨rfl, rfl, rfl⟩
  · unfold fetch_json_api
    rw [fetchJsonApiGo]
    rw [h404]
    exact ⟨rfl, rfl, rfl⟩

/-- Witness for C5 at a concrete always-404 endpoint. -/
theorem C5_notfound_no_retry_witness :
    (fetch_page_html c4cfg (fun _ => .status 404 "nf") "u" 0).1 =
      .inr (.scraping "u" (some 404)) ∧
    (fetch_page_html c4cfg (fun _ => .status 404 "nf") "u" 0).2.attempts = 1 ∧
    (fetch_json_api c4cfg (fun _ => .status 404 "nf") some "u").1 =
      .inr (.scraping "u" (some 404)) := by
  have h := C5_notfound_no_retry c4cfg (fun _ => .status 404 "nf") some
    "u" 0 "nf" rfl
  exact ⟨h.1.1, h.1.2.1, h.2.1⟩

/-! ## Lemmas for the weekly-price claim (C1) -/

set_option maxRecDepth 4000 in
lemma priceBody_euro_week {ds : List Char} (hne : ds ≠ [])
    (h : ∀ c ∈ ds, c.isDigit = true) :
    priceBody (ds ++ " per week".data) =
      some (ds, some ['w', 'e', 'e', 'k']) := by
  have e1 := @munch_stop (fun c => c.isDigit || c = ',') ds
    " per week".data (fun c hc => by simp [h c hc])
    (Or.inr ⟨' ', "per week".data, by decide, by decide⟩)
  simp only [priceBody, e1, if_neg hne]
  rfl

set_option maxRecDepth 4000 in
lemma matchPriceAt_euro_week {ds : List Char} (hne : ds ≠ [])
    (h : ∀ c ∈ ds, c.isDigit = true) :
    matchPriceAt ('€' :: (ds ++ " per week".data)) =
      some (ds, some ['w', 'e', 'e', 'k']) := by
  obtain ⟨c1, t1, rfl⟩ := List.exists_cons_of_ne_nil hne
  have hc1 : c1.isDigit = true := h c1 (List.mem_cons_self _ _)
  have e0 : munch pyIsSpace ((c1 :: t1) ++ " per week".data) =
      ([], (c1 :: t1) ++ " per week".data) := by
    rw [List.cons_append]
    exact munch_cons_neg _ (pyIsSpace_of_isDigit hc1)
  rw [show matchPriceAt ('€' :: ((c1 :: t1) ++ " per week".data)) =
    priceBody (munch pyIsSpace ((c1 :: t1) ++ " per week".data)).2 from rfl]
  rw [e0]
  exact priceBody_euro_week hne h

/-- The weekly price string `"€<ds> per week"` as a char list. -/
def euroWeekly (ds : List Char) : List Char := '€' :: (ds ++ " per week".data)

lemma pyLower_euroWeekly {ds : List Char} (h : ∀ c ∈ ds, c.isDigit = true) :
    pyLower (euroWeekly ds) = euroWeekly ds := by
  unfold euroWeekly
  rw [show ('€' :: (ds ++ " per week".data)) =
    ['€'] ++ (ds ++ " per week".data) from rfl]
  rw [pyLower_append, pyLower_append, pyLower_digits h]
  rfl

lemma euroWeekly_no_char {ds : List Char} (h : ∀ c ∈ ds, c.isDigit = true)
    {x : Char} (hx : x.val.toNat < 48 ∨ 57 < x.val.toNat)
    (hx2 : x ∉ ['€', ' ', 'p', 'e', 'r', 'w', 'k']) :
    ∀ c ∈ euroWeekly ds, c ≠ x := by
  intro c hc
  unfold euroWeekly at hc
  simp only [List.mem_cons, List.mem_append, List.not_mem_nil,
    or_false] at hc
  rcases hc with rfl | hc1 | hc2
  · exact fun heq => hx2 (by rw [← heq]; decide)
  · exact ne_of_isDigit_of_out (h c hc1) hx
  · rcases hc2 with rfl | rfl | rfl | rfl | rfl | rfl | rfl | rfl | rfl <;>
      exact fun heq => hx2 (by rw [← heq]; decide)

set_option maxRecDepth 4000 in
lemma parse_price_str_euro_week {ds : List Char} (hne : ds ≠ [])
    (h : ∀ c ∈ ds, c.isDigit = true) :
    parse_price_str ⟨euroWeekly ds⟩ =
      ⟨some ((pyRound ((digitsVal ds : ℚ) * 52 / 12) : ℤ) : ℚ), .numeric⟩ := by
  have hnorm : pyLower (String.data ⟨euroWeekly ds⟩) = euroWeekly ds :=
    pyLower_euroWeekly h
  have hpoa : listContains "price on application".data (euroWeekly ds) =
      false :=
    not_listContains (x := 'i') (by decide)
      (euroWeekly_no_char h (by decide) (by decide))
  have hca : listContains "contact agent".data (euroWeekly ds) = false :=
    not_listContains (x := 'a') (by decide)
      (euroWeekly_no_char h (by decide) (by decide))
  have hscan : scanFirst matchPriceAt (euroWeekly ds) =
      some (ds, some ['w', 'e', 'e', 'k']) :=
    scanFirst_cons_some (matchPriceAt_euro_week hne h)
  have hfloat : pyFloat (ds.filter (· ≠ ',')) = some ((digitsVal ds : ℚ)) := by
    rw [filter_ne_comma_of_digits h]
    exact pyFloat_digits hne h
  simp only [parse_price_str, hnorm, hpoa, hca, Bool.or_self,
    Bool.false_eq_true, if_false, hscan, hfloat]
  rfl

/-- C1 (amended): for every price string of the form `"€X per week"`
(`X` a decimal numeral), `parse_price` produces the monthly-equivalent
numeric value `round(X * 52 / 12)` — but the resulting listing's
`price_period` is `week`, not `month` (`transform_to_property_listing`
derives the period from the raw string's cadence word, independent of the
weekly→monthly value conversion); its `price_eur` is the parsed value
carried on the candidate. -/
theorem C1_weekly_price_corrected :
    ∀ ds : List Char, ds ≠ [] → (∀ c ∈ ds, c.isDigit = true) →
      parse_price_str ⟨euroWeekly ds⟩ =
        ⟨some ((pyRound ((digitsVal ds : ℚ) * 52 / 12) : ℤ) : ℚ),
         .numeric⟩ ∧
      ∀ (sp : ScrapedProperty) (lt : ListingType),
        sp.price_string = ⟨euroWeekly ds⟩ →
        (transform_to_property_listing sp lt).price_period = some "week" ∧
        (transform_to_property_listing sp lt).price_eur = sp.parsed_price := by
  intro ds hne h
  refine ⟨parse_price_str_euro_week hne h, ?_⟩
  intro sp lt hps
  have hnonempty : sp.price_string ≠ "" := by
    rw [hps]
    intro heq
    have hdata := congrArg String.data heq
    simp [euroWeekly] at hdata
  have hweek : listContains "week".data (pyLower sp.price_string.data) =
      true := by
    rw [hps]
    rw [show (String.data ⟨euroWeekly ds⟩) = euroWeekly ds from rfl]
    rw [pyLower_euroWeekly h]
    have hmid := listContains_append_mid ('€' :: (ds ++ " per ".data))
      "week".data []
    rw [show ('€' :: (ds ++ " per ".data)) ++ ("week".data ++ []) =
      euroWeekly ds from by simp [euroWeekly, List.append_assoc]] at hmid
    exact hmid
  constructor
  · simp [transform_to_property_listing, hnonempty, hweek]
  · rfl

/-- The concrete raw candidate of the C1 counterexample and witness:
price string `"€100 per week"`, parsed through `parse_price` exactly as
`parse_property_details_json` does. -/
def weeklyScraped : ScrapedProperty :=
  { address := "addr", url := "u", id := "123", tagline := "t",
    price_string := "€100 per week",
    parsed_price := (parse_price_str "€100 per week").value,
    price_type := .numeric, beds_string := "", baths_string := "",
    property_type_string := "" }

/-- C1 counterexample: for the weekly price string `"€100 per week"` the
resulting listing's price period is `week`, not `month` as the claim
states. -/
theorem C1_weekly_price_counterexample :
    (transform_to_property_listing weeklyScraped .rent).price_period =
      some "week" ∧
    (transform_to_property_listing weeklyScraped .rent).price_period ≠
      some "month" := by
  constructor <;> decide

/-- Witness for C1 (amended) at `X = 100`: the parsed value is
`round(100 * 52 / 12)` and the listing period is `week`. -/
theorem C1_weekly_price_corrected_witness :
    parse_price_str ⟨euroWeekly ['1', '0', '0']⟩ =
      ⟨some ((pyRound ((digitsVal ['1', '0', '0'] : ℚ) * 52 / 12) : ℤ) : ℚ),
       .numeric⟩ ∧
    (transform_to_property_listing weeklyScraped .rent).price_period =
      some "week" := by
  have h := C1_weekly_price_corrected ['1', '0', '0'] (by decide) (by decide)
  exact ⟨h.1, (h.2 weeklyScraped .rent (by decide)).1⟩

/-! ## Lemmas for the totality claim (C8) -/

lemma priceFallback_shape (s : String) :
    priceFallback s = ⟨Option.none, .unknown⟩ ∨
    ∃ q, priceFallback s = ⟨some q, .numeric⟩ := by
  unfold priceFallback
  dsimp only
  split
  · split
    · split
      · exact Or.inr ⟨_, rfl⟩
      · exact Or.inl rfl
    · exact Or.inl rfl
  · exact Or.inl rfl

lemma parse_price_str_shape (s : String) :
    parse_price_str s = ⟨Option.none, .unknown⟩ ∨
    parse_price_str s = ⟨Option.none, .on_application⟩ ∨
    ∃ q, parse_price_str s = ⟨some q, .numeric⟩ := by
  unfold parse_price_str
  dsimp only
  split
  · exact Or.inr (Or.inl rfl)
  · split
    · split
      · split
        · exact Or.inr (Or.inr ⟨_, rfl⟩)
        · split
          · exact Or.inr (Or.inr ⟨_, rfl⟩)
          · rcases priceFallback_shape s with h | ⟨q, h⟩
            · exact Or.inl h
            · exact Or.inr (Or.inr ⟨q, h⟩)
      · rcases priceFallback_shape s with h | ⟨q, h⟩
        · exact Or.inl h
        · exact Or.inr (Or.inr ⟨q, h⟩)
    · rcases priceFallback_shape s with h | ⟨q, h⟩
      · exact Or.inl h
      · exact Or.inr (Or.inr ⟨q, h⟩)

/-- C8: the three field normalizers are total over all Python values
(totality is by construction of the embedding: every `try`-guarded
conversion is modelled as an `Option` the code handles), return the
null/unknown marker on `None`, non-string and empty-string inputs, and
`parse_price` carries a numeric value exactly when its kind is
`numeric`. -/
theorem C8_normalizers_total :
    ∀ v : PyObj,
      ((v.isStr = false ∨ v = .str "") →
        parse_price v = ⟨Option.none, .unknown⟩ ∧
        parse_beds v = Option.none ∧
        parse_bathrooms v = Option.none) ∧
      ((parse_price v).type ≠ .numeric →
        (parse_price v).value = Option.none) ∧
      ((parse_price v).type = .numeric →
        ∃ q, (parse_price v).value = some q) := by
  intro v
  refine ⟨?_, ?_, ?_⟩
  · rintro (hnon | rfl)
    · cases v with
      | str s => simp [PyObj.isStr] at hnon
      | none => exact ⟨rfl, rfl, rfl⟩
      | int i => refine ⟨?_, ?_, ?_⟩ <;>
          simp [parse_price, parse_beds, parse_bathrooms, PyObj.isStr]
      | float q => refine ⟨?_, ?_, ?_⟩ <;>
          simp [parse_price, parse_beds, parse_bathrooms, PyObj.isStr]
      | bool b => refine ⟨?_, ?_, ?_⟩ <;>
          simp [parse_price, parse_beds, parse_bathrooms, PyObj.isStr]
    · refine ⟨?_, ?_, ?_⟩ <;>
        simp [parse_price, parse_beds, parse_bathrooms, PyObj.truthy]
  all_goals
    cases v with
    | str s =>
      by_cases hs : s = ""
      · subst hs
        have hval0 : parse_price (.str "") = ⟨Option.none, .unknown⟩ := by
          simp [parse_price, PyObj.truthy]
        rw [hval0]
        intro h0
        first
          | exact rfl
          | simp at h0
      · have hval : parse_price (.str s) = parse_price_str s := by
          simp [parse_price, PyObj.truthy, PyObj.isStr, hs]
        rw [hval]
        rcases parse_price_str_shape s with h | h | ⟨q, h⟩ <;>
          rw [h] <;> simp
    | none => intro h0; simp [parse_price] at h0 ⊢
    | int i => intro h0; simp [parse_price, PyObj.isStr] at h0 ⊢
    | float q => intro h0; simp [parse_price, PyObj.isStr] at h0 ⊢
    | bool b => intro h0; simp [parse_price, PyObj.isStr] at h0 ⊢

/-- Witness for C8 at concrete inputs: `None`, the integer `7`, the empty
string and an unparseable string. -/
theorem C8_normalizers_total_witness :
    (parse_price .none = ⟨Option.none, .unknown⟩ ∧
     parse_beds .none = Option.none ∧
     parse_bathrooms .none = Option.none) ∧
    (parse_price (.int 7) = ⟨Option.none, .unknown⟩ ∧
     parse_beds (.int 7) = Option.none ∧
     parse_bathrooms (.int 7) = Option.none) ∧
    (parse_price (.str "") = ⟨Option.none, .unknown⟩ ∧
     parse_beds (.str "") = Option.none ∧
     parse_bathrooms (.str "") = Option.none) ∧
    (parse_price (.str "no price here")).value = Option.none := by
  refine ⟨(C8_normalizers_total .none).1 (Or.inl rfl),
    (C8_normalizers_total (.int 7)).1 (Or.inl rfl),
    (C8_normalizers_total (.str "")).1 (Or.inr rfl),
    (C8_normalizers_total (.str "no price here")).2.1 (by decide)⟩

end DaftScraper
